import Mathlib

/-!
Verification of the fusion-datasets schema-evolution engine and checkpoint
comparator, as a shallow embedding of `src/fusion_datasets/sql_dataset.py`
and `src/fusion_datasets/comparison_function.py`.
-/

/-! ### String helpers mirroring the Python string operations used by the code -/

/-- Bool test that `pat` is a prefix of `l` (character lists). -/
def hasPrefixL : List Char → List Char → Bool
  | [], _ => true
  | _ :: _, [] => false
  | a :: pa, b :: pb => a == b && hasPrefixL pa pb

/-- Bool test that `pat` occurs as a contiguous substring of `l`. -/
def hasSubstrL : List Char → List Char → Bool
  | pat, [] => pat.isEmpty
  | pat, c :: rest => hasPrefixL pat (c :: rest) || hasSubstrL pat rest

/-- Python's `pat in s` on strings. -/
def strContains (s pat : String) : Bool :=
  hasSubstrL pat.data s.data

/-- Left-to-right, non-overlapping removal of every occurrence of the
9-character pattern `Nullable(`, as Python's `str.replace("Nullable(", "")`. -/
def removeNullableOpen : List Char → List Char
  | 'N' :: 'u' :: 'l' :: 'l' :: 'a' :: 'b' :: 'l' :: 'e' :: '(' :: rest =>
      removeNullableOpen rest
  | c :: rest => c :: removeNullableOpen rest
  | [] => []

/-- Python `dtype.replace("Nullable(", "").replace(")", "")`: the second
replace removes every `)` character. -/
def stripNullable (s : String) : String :=
  ⟨(removeNullableOpen s.data).filter (fun c => c != ')')⟩

/-- Python `str.lower()` (ASCII case folding suffices for the mode strings). -/
def lowerStr (s : String) : String :=
  ⟨s.data.map Char.toLower⟩

/-- Python `str.strip()`: drop leading and trailing whitespace. -/
def pyStrip (s : String) : String :=
  ⟨((s.data.dropWhile Char.isWhitespace).reverse.dropWhile Char.isWhitespace).reverse⟩

/-! ### Dates, mirroring `datetime.datetime` values at day granularity and
`dateutil.relativedelta(months=1)` -/

/-- A parsed date (the injected parser returns `datetime` objects; the
admission logic compares them and shifts them by whole days/months, so day
granularity is the relevant structure). -/
structure PyDate where
  y : Int
  m : Nat
  d : Nat
deriving DecidableEq, Repr

def isLeapYear (y : Int) : Bool :=
  (Int.emod y 4 == 0 && Int.emod y 100 != 0) || Int.emod y 400 == 0

def monthLength (y : Int) (m : Nat) : Nat :=
  if m == 2 then (if isLeapYear y then 29 else 28)
  else if m == 4 || m == 6 || m == 9 || m == 11 then 30
  else 31

/-- `relativedelta(months=1)`: advance one calendar month, clamping the day
to the length of the target month. -/
def addMonth (dt : PyDate) : PyDate :=
  let ny := if dt.m == 12 then dt.y + 1 else dt.y
  let nm := if dt.m == 12 then 1 else dt.m + 1
  { y := ny, m := nm, d := min dt.d (monthLength ny nm) }

/-- Days since 1970-01-01 in the proleptic Gregorian calendar (the calendar of
`datetime`); chronological comparison of datetimes is comparison of these
ordinals, and `timedelta(days=k)` is ordinal `± k`. -/
def PyDate.ord (dt : PyDate) : Int :=
  let y : Int := if dt.m ≤ 2 then dt.y - 1 else dt.y
  let m : Int := dt.m
  let d : Int := dt.d
  let era : Int := Int.fdiv y 400
  let yoe : Int := y - era * 400
  let mp : Int := Int.fmod (m + 9) 12
  let doy : Int := Int.fdiv (153 * mp + 2) 5 + d - 1
  let doe : Int := yoe * 365 + Int.fdiv yoe 4 - Int.fdiv yoe 100 + doy
  era * 146097 + doe - 719468

/-! ### ComparisonFunction (`comparison_function.py`) -/

/-- The error kinds surfaced by the comparator: `valueError` is a raised
`ValueError` (the configuration-error kind); `parserError` is the injected
parser's own exception propagating unwrapped. -/
inductive PyErr where
  | valueError (msg : String)
  | parserError (msg : String)
deriving DecidableEq, Repr

/-- The comparator object: an injected parser and the lazily-set
`_current_checkpoint` field (initially `None`). -/
structure ComparisonFunction where
  parser : String → Except String PyDate
  currentCheckpoint : Option String

/-- `ComparisonFunction.__init__`: `_current_checkpoint = None`. -/
def mkComparisonFunction (parser : String → Except String PyDate) : ComparisonFunction :=
  { parser := parser, currentCheckpoint := none }

/-- `_init_checkpoint` as invoked by the `init_checkpoint` decorator (which has
already stripped the checkpoint argument): set `_current_checkpoint` only if it
is still `None`, to the partition id when the stripped checkpoint is empty and
to the stripped checkpoint otherwise. -/
def initCk (cf : ComparisonFunction) (partitionId ck : String) : ComparisonFunction :=
  match cf.currentCheckpoint with
  | some _ => cf
  | none =>
      { cf with currentCheckpoint := some (if ck == "" then partitionId else ck) }

def validIncrementMethods : List String :=
  ["no", "null", "none", "n", "auto", "next"]

def noneSynonyms : List String :=
  ["no", "null", "none"]

/-- Body of `same_month` after the decorator has run (`cf` already carries the
initialized checkpoint). `incrementMethod = none` models passing Python `None`,
which `increment_method or ""` turns into the empty string. Logging elided. -/
def sameMonthResult (cf : ComparisonFunction) (partitionId _checkpoint : String)
    (incrementMethod : Option String) : Except PyErr Bool :=
  let im := incrementMethod.getD ""
  if validIncrementMethods.contains (lowerStr im) = false then
    .error (.valueError "Invalid increment_method!")
  else
    match cf.parser (cf.currentCheckpoint.getD ""), cf.parser partitionId with
    | .ok chkPt, .ok partId =>
        let isSameMonth := partId == chkPt
        let isNextMonth := partId == addMonth chkPt
        let load :=
          if noneSynonyms.contains (lowerStr im) then isSameMonth
          else if im == "auto" then isSameMonth || isNextMonth
          else if im == "next" then isNextMonth
          else false
        .ok load
    | _, _ => .error (.valueError "Parser error. Please check your parser")

/-- `same_month`, including the `init_checkpoint` decorator's stripping and
lazy checkpoint initialization; returns the mutated object together with the
outcome. -/
def sameMonth (cf : ComparisonFunction) (partitionId checkpoint : String)
    (incrementMethod : Option String) : ComparisonFunction × Except PyErr Bool :=
  let cf' := initCk cf partitionId (pyStrip checkpoint)
  (cf', sameMonthResult cf' partitionId (pyStrip checkpoint) incrementMethod)

/-- `chk_pt - datetime.timedelta(days=left) if left else chk_pt`, on ordinals:
Python truthiness makes both `None` and `0` fall back to the checkpoint. -/
def lowerOrd (chk : Int) : Option Int → Int
  | none => chk
  | some l => if l != 0 then chk - l else chk

/-- `chk_pt + datetime.timedelta(days=right) if right else None`. -/
def upperOrd (chk : Int) : Option Int → Option Int
  | none => none
  | some r => if r != 0 then some (chk + r) else none

def validCloseArgs : List (Option String) :=
  [some "left", some "right", some "both", none]

def showCloseArg : Option String → String
  | none => "None"
  | some s => s

/-- Body of `boundary` after the decorator has run. The parser calls are not
wrapped in any try/except: a parser failure propagates as the parser's own
exception. -/
def boundaryResult (cf : ComparisonFunction) (partitionId _checkpoint : String)
    (left right : Option Int) (close : Option String) : Except PyErr Bool :=
  if validCloseArgs.contains close = false then
    .error (.valueError ("Invalid argument. `close` got invalid value " ++ showCloseArg close))
  else
    let cl := close.getD "both"
    match cf.parser (cf.currentCheckpoint.getD "") with
    | .error e => .error (.parserError e)
    | .ok chkPt =>
        match cf.parser partitionId with
        | .error e => .error (.parserError e)
        | .ok partId =>
            let lowerBound := lowerOrd chkPt.ord left
            let upperBound := upperOrd chkPt.ord right
            let leftComp : Bool :=
              if cl != "right" then decide (lowerBound ≤ partId.ord)
              else decide (lowerBound < partId.ord)
            let rightComp : Bool :=
              match upperBound with
              | some ub =>
                  if cl != "left" then decide (partId.ord ≤ ub)
                  else decide (partId.ord < ub)
              | none => true
            .ok (leftComp && rightComp)

/-- `boundary`, including the `init_checkpoint` decorator. -/
def boundary (cf : ComparisonFunction) (partitionId checkpoint : String)
    (left right : Option Int) (close : Option String) : ComparisonFunction × Except PyErr Bool :=
  let cf' := initCk cf partitionId (pyStrip checkpoint)
  (cf', boundaryResult cf' partitionId (pyStrip checkpoint) left right close)

/-- One call against a comparator instance. -/
inductive CmpCall where
  | month (p c : String) (im : Option String)
  | bnd (p c : String) (l r : Option Int) (close : Option String)

/-- Run one call, keeping only the (possibly mutated) object: even a call that
raises has already executed `_init_checkpoint`. -/
def stepCall (cf : ComparisonFunction) : CmpCall → ComparisonFunction
  | .month p c im => (sameMonth cf p c im).1
  | .bnd p c l r close => (boundary cf p c l r close).1

def runCalls (cf : ComparisonFunction) : List CmpCall → ComparisonFunction
  | [] => cf
  | call :: rest => runCalls (stepCall cf call) rest

/-- The checkpoint a first call on a fresh comparator establishes. -/
def resolveCheckpoint : CmpCall → String
  | .month p c _ => if pyStrip c == "" then p else pyStrip c
  | .bnd p c _ _ _ => if pyStrip c == "" then p else pyStrip c

/-- A concrete day-granular parser used for witnesses and counterexamples. -/
def demoParser : String → Except String PyDate
  | "2024-01-10" => .ok ⟨2024, 1, 10⟩
  | "2024-03-01" => .ok ⟨2024, 3, 1⟩
  | "2024-03-15" => .ok ⟨2024, 3, 15⟩
  | "2024-04-01" => .ok ⟨2024, 4, 1⟩
  | s => .error ("could not parse " ++ s)

/-! ### ClickHouseTablesDataset (`sql_dataset.py`) -/

/-- Pandas dtypes as discriminated by `pd.api.types` in `_get_clickhouse_type`. -/
inductive Dtype where
  | int
  | float
  | datetime
  | bool
  | obj
deriving DecidableEq, Repr

/-- A cell of a dataframe; `nan` is the float not-a-number sentinel and
`null` is Python `None`. -/
inductive Cell where
  | nan
  | null
  | num (n : Int)
  | txt (s : String)
deriving DecidableEq, Repr

/-- A pandas DataFrame: named, dtyped columns in order, plus rows. -/
structure Frame where
  cols : List (String × Dtype)
  rows : List (List Cell)
deriving DecidableEq, Repr

/-- `df.replace({np.nan: None})`: every NaN cell becomes a true null. -/
def replaceNanNone (df : Frame) : Frame :=
  { df with rows := df.rows.map (fun r => r.map (fun c => if c = .nan then .null else c)) }

/-- Dtype of `pd.concat` of two columns: equal dtypes are kept, int with float
promotes to float, and any other mixed pair falls back to object (pandas
promotes bool/int, datetime/number, and anything with object to object). -/
def promoteDtype (a b : Dtype) : Dtype :=
  if a == b then a
  else
    match a, b with
    | .int, .float => .float
    | .float, .int => .float
    | _, _ => .obj

/-- Dtype of the concatenation of `column`'s slices across the frames that
contain it; `pd.concat` of an empty list raises in Python, which is
unreachable from the engine (it only asks for columns present in at least one
frame), so the empty case defaults to object here. -/
def mergedDtypeOf (dfs : List Frame) (column : String) : Dtype :=
  match dfs.filterMap (fun d => d.cols.lookup column) with
  | [] => .obj
  | d :: ds => ds.foldl promoteDtype d

/-- `_get_clickhouse_type`: render a dtype as a ClickHouse type string. -/
def getClickhouseType (tz : Option String) (dtype : Dtype) : String :=
  match dtype with
  | .int => "Nullable(Int32)"
  | .float => "Nullable(Float64)"
  | .datetime =>
      match tz with
      | some s => "DateTime('" ++ s ++ "')"
      | none => "DateTime"
  | .bool => "Nullable(UInt8)"
  | .obj => "Nullable(String)"

/-- `_get_merged_type`: the cross-frame merged type, with the nullable wrapper
stripped when the column is the configured ordering column. -/
def getMergedType (tz : Option String) (orderBy : String) (dfs : List Frame)
    (column : String) : String :=
  let dtype := getClickhouseType tz (mergedDtypeOf dfs column)
  if column == orderBy && strContains dtype "Nullable" then stripNullable dtype
  else dtype

/-- Column names in order of appearance across the frames, with repetitions:
the generator underneath `set(col for df in dfs for col in df.columns)`. -/
def allColNames (dfs : List Frame) : List String :=
  dfs.flatMap (fun d => d.cols.map Prod.fst)

/-- First-seen deduplication of a list of names. -/
def firstSeen : List String → List String
  | [] => []
  | c :: cs => c :: (firstSeen cs).filter (fun x => x != c)

/-- A possible iteration order of the Python set built from `l`: any
enumeration of `l`'s distinct elements, each exactly once. CPython leaves the
order unspecified (it depends on string hashing), so the engine is
parameterized by the enumeration the runtime happens to produce. -/
def IsSetEnum (σ : List String → List String) : Prop :=
  ∀ l : List String, (σ l).Perm (firstSeen l)

/-- The `(name, type)` pairs the CREATE statement lists, in the runtime's
set-enumeration order. -/
def createColumns (σ : List String → List String) (tz : Option String)
    (orderBy : String) (dfs : List Frame) : List (String × String) :=
  (σ (allColNames dfs)).map (fun c => (c, getMergedType tz orderBy dfs c))

/-- Live backend schema state: the tables of the configured database with
their column names in DESCRIBE order. -/
structure ChState where
  tables : List (String × List String)
deriving DecidableEq, Repr

def tableExists (st : ChState) (t : String) : Bool :=
  (st.tables.lookup t).isSome

def dropState (st : ChState) (t : String) : ChState :=
  { tables := st.tables.filter (fun e => e.1 != t) }

def createState (st : ChState) (t : String) (cols : List String) : ChState :=
  { tables := st.tables ++ [(t, cols)] }

def addColState (st : ChState) (t : String) (c : String) : ChState :=
  { tables := st.tables.map (fun e => if e.1 == t then (e.1, e.2 ++ [c]) else e) }

/-- The backend commands the engine issues, in order. -/
inductive ChOp where
  | createDatabase (db : String)
  | dropTable (db t : String)
  | createTable (db t : String) (columns : List (String × String)) (orderBy : String)
  | addColumn (db t : String) (col ty : String)
  | insertDf (db t : String) (df : Frame)
deriving DecidableEq, Repr

/-- The ALTER loop of `_create_or_alter_table`: `existing` is the DESCRIBE
result fetched once before the loop; each frame column absent from it gets one
ADD COLUMN typed from that column's own dtype. -/
def alterLoop (tz : Option String) (db t : String) (existing : List String)
    (st : ChState) : List (String × Dtype) → ChState × List ChOp
  | [] => (st, [])
  | cd :: rest =>
      if existing.contains cd.1 then alterLoop tz db t existing st rest
      else
        let st' := addColState st t cd.1
        let out := alterLoop tz db t existing st' rest
        (out.1, .addColumn db t cd.1 (getClickhouseType tz cd.2) :: out.2)

/-- `_create_or_alter_table`. -/
def createOrAlterTable (σ : List String → List String) (tz : Option String)
    (orderBy db : String) (st : ChState) (t : String) (df : Frame)
    (dfs : List Frame) : ChState × List ChOp :=
  if tableExists st t = false then
    let columns := createColumns σ tz orderBy dfs
    (createState st t (columns.map Prod.fst), [.createTable db t columns orderBy])
  else
    let existing := (st.tables.lookup t).getD []
    alterLoop tz db t existing st df.cols

/-- The per-frame loop of `_save`: for each frame, `_create_or_alter_table`
then `insert_df` with the frame passed through unchanged. -/
def framesLoop (σ : List String → List String) (tz : Option String)
    (orderBy db t : String) (dfsAll : List Frame) (st : ChState) :
    List Frame → ChState × List ChOp
  | [] => (st, [])
  | df :: rest =>
      let out1 := createOrAlterTable σ tz orderBy db st t df dfsAll
      let out2 := framesLoop σ tz orderBy db t dfsAll out1.1 rest
      (out2.1, out1.2 ++ [.insertDf db t df] ++ out2.2)

/-- Processing of one `(table, frames)` item of `_save`: check-then-drop when
overwriting, then the per-frame loop. -/
def saveOne (σ : List String → List String) (tz : Option String)
    (orderBy db : String) (overwrite : Bool) (st : ChState) (t : String)
    (dfs : List Frame) : ChState × List ChOp :=
  if overwrite && tableExists st t then
    let out := framesLoop σ tz orderBy db t dfs (dropState st t) dfs
    (out.1, .dropTable db t :: out.2)
  else
    framesLoop σ tz orderBy db t dfs st dfs

/-- The `for table_name, dfs in data.items()` loop of `_save`. -/
def saveLoop (σ : List String → List String) (tz : Option String)
    (orderBy db : String) (overwrite : Bool) (st : ChState) :
    List (String × List Frame) → ChState × List ChOp
  | [] => (st, [])
  | (t, dfs) :: rest =>
      let out1 := saveOne σ tz orderBy db overwrite st t dfs
      let out2 := saveLoop σ tz orderBy db overwrite out1.1 rest
      (out2.1, out1.2 ++ out2.2)

/-- `ClickHouseTablesDataset._save`: create the database if needed, then the
per-table loop. `data` is the caller's mapping in dict insertion order. -/
def chSave (σ : List String → List String) (tz : Option String)
    (orderBy db : String) (overwrite : Bool) (st : ChState)
    (data : List (String × List Frame)) : ChState × List ChOp :=
  let out := saveLoop σ tz orderBy db overwrite st data
  (out.1, .createDatabase db :: out.2)

/-- The table an op addresses (`createDatabase` addresses none). -/
def opTable : ChOp → Option String
  | .createDatabase _ => none
  | .dropTable _ t => some t
  | .createTable _ t _ _ => some t
  | .addColumn _ t _ _ => some t
  | .insertDf _ t _ => some t

def isDropOp : ChOp → Bool
  | .dropTable _ _ => true
  | _ => false

def isDropOf (t : String) : ChOp → Bool
  | .dropTable _ t' => t' == t
  | _ => false

/-- The ops of a save trace that address table `t`. -/
def opsFor (t : String) (ops : List ChOp) : List ChOp :=
  ops.filter (fun o => opTable o == some t)

/-! ### SQLTableDataset._save (`sql_dataset.py`) -/

/-- The value-shape dispatch of `SQLTableDataset._save`. -/
inductive SqlSaveInput where
  | sqlStr (s : String)
  | sqlList (ss : List String)
  | frame (df : Frame)
deriving DecidableEq, Repr

/-- Backend effects of `SQLTableDataset._save`. -/
inductive SqlOp where
  | command (s : String)
  | insertDf (name : String) (df : Frame)
  | toSql (df : Frame)
deriving DecidableEq, Repr

/-- `SQLTableDataset._save`: on a clickhouse connection string, raw SQL is
executed as commands and a frame is inserted after `replace({np.nan: None})`;
otherwise a frame goes through `to_sql` (a non-frame value there would fail
attribute lookup, modelled as `none`). -/
def sqlTableSave (connectionStr saveName : String) (input : SqlSaveInput) :
    Option (List SqlOp) :=
  if strContains connectionStr "clickhouse" then
    match input with
    | .sqlStr s => some [.command s]
    | .sqlList ss => some (ss.map .command)
    | .frame df => some [.insertDf saveName (replaceNanNone df)]
  else
    match input with
    | .frame df => some [.toSql df]
    | _ => none

deriving instance DecidableEq for Except

/-! ### Lemmas about the comparator state -/

lemma initCk_some (pr : String → Except String PyDate) (v p c : String) :
    initCk ⟨pr, some v⟩ p c = ⟨pr, some v⟩ := rfl

lemma stepCall_some (pr : String → Except String PyDate) (v : String) (call : CmpCall) :
    stepCall ⟨pr, some v⟩ call = ⟨pr, some v⟩ := by
  cases call <;> rfl

lemma runCalls_some (pr : String → Except String PyDate) (v : String) (calls : List CmpCall) :
    runCalls ⟨pr, some v⟩ calls = ⟨pr, some v⟩ := by
  induction calls with
  | nil => rfl
  | cons a l ih => simpa [runCalls, stepCall_some] using ih

lemma stepCall_fresh (pr : String → Except String PyDate) (call : CmpCall) :
    stepCall (mkComparisonFunction pr) call = ⟨pr, some (resolveCheckpoint call)⟩ := by
  cases call <;> rfl

/-- C7: the comparator's remembered checkpoint is set exactly once: the first
call of `same_month` or `boundary` on a fresh instance fixes it to that call's
(stripped) checkpoint argument, or to that call's partition id when the
checkpoint argument is empty; once set, no later call's arguments change it,
and every later call reads this remembered value. -/
theorem checkpoint_first_call_wins :
    (∀ (pr : String → Except String PyDate) (call : CmpCall) (rest : List CmpCall),
      (runCalls (mkComparisonFunction pr) (call :: rest)).currentCheckpoint
        = some (resolveCheckpoint call))
    ∧ (∀ (pr : String → Except String PyDate) (v : String) (calls : List CmpCall),
      (runCalls ⟨pr, some v⟩ calls).currentCheckpoint = some v) := by
  constructor
  · intro pr call rest
    have h1 : runCalls (mkComparisonFunction pr) (call :: rest)
        = runCalls ⟨pr, some (resolveCheckpoint call)⟩ rest := by
      simp [runCalls, stepCall_fresh]
    rw [h1, runCalls_some]
  · intro pr v calls
    rw [runCalls_some]

lemma lowerOrd_zero (chk : Int) : lowerOrd chk (some 0) = lowerOrd chk none := by
  simp [lowerOrd]

lemma upperOrd_zero (chk : Int) : upperOrd chk (some 0) = upperOrd chk none := by
  simp [upperOrd]

/-- C10: `boundary` treats a zero-day offset as an absent one: with
`left = 0` the call behaves exactly as with `left` omitted (lower bound
collapses to the checkpoint), and with `right = 0` exactly as with `right`
omitted (no upper bound), because `if left:` / `if right:` are false at 0. -/
theorem boundary_zero_offset_is_omitted :
    ∀ (cf : ComparisonFunction) (p c : String) (l r : Option Int) (close : Option String),
      boundary cf p c (some 0) r close = boundary cf p c none r close
      ∧ boundary cf p c l (some 0) close = boundary cf p c l none close := by
  intro cf p c l r close
  constructor <;> simp only [boundary, boundaryResult, lowerOrd_zero, upperOrd_zero]

/-- C8 counterexample: checkpoint and partition parse to the same date
2024-01-10; `left` is omitted and `close = "right"`. The claim's rider says an
omitted `left` makes the lower bound the checkpoint itself with an inclusive
compare, which would admit the partition; the code still applies the strict
comparison selected by `close = "right"` and rejects it. -/
theorem boundary_omitted_left_not_inclusive :
    (boundary (mkComparisonFunction demoParser) "2024-01-10" "2024-01-10" none (some 5)
        (some "right")).2 = .ok false
    ∧ demoParser "2024-01-10" = .ok ⟨2024, 1, 10⟩ := by
  exact ⟨by decide, by decide⟩

/-- C8 (amended): with a valid `close` and both parses succeeding, `boundary`
admits iff the partition lies in the window `[checkpoint − left, checkpoint +
right]` on day ordinals, where `close = "right"` makes the left comparison
strict and `close = "left"` makes the right comparison strict, `close =
"both"` or an absent `close` makes both inclusive; an omitted or zero `left`
collapses the lower bound to the checkpoint itself but the inclusivity is
still the one selected by `close`, and an omitted or zero `right` makes the
right comparison always true; no error is raised. -/
theorem boundary_window_characterization :
    ∀ (pr : String → Except String PyDate) (ck p c : String) (chkPt partId : PyDate)
      (l r : Option Int) (close : Option String),
      validCloseArgs.contains close = true →
      pr ck = .ok chkPt → pr p = .ok partId →
      ((boundary ⟨pr, some ck⟩ p c l r close).2 = .ok true ↔
        ((if close = some "right" then lowerOrd chkPt.ord l < partId.ord
          else lowerOrd chkPt.ord l ≤ partId.ord) ∧
         (match upperOrd chkPt.ord r with
          | some ub => if close = some "left" then partId.ord < ub else partId.ord ≤ ub
          | none => True)))
      ∧ (∀ e, (boundary ⟨pr, some ck⟩ p c l r close).2 ≠ .error e) := by
  intro pr ck p c chkPt partId l r close hcl hck hp
  have hcases : close = some "left" ∨ close = some "right" ∨ close = some "both"
      ∨ close = none := by
    simpa [validCloseArgs] using hcl
  rcases hcases with h | h | h | h <;> subst h <;>
    cases hub : upperOrd chkPt.ord r <;>
      simp [boundary, boundaryResult, initCk, hck, hp, hub, validCloseArgs]

/-- Closed witness for `boundary_window_characterization`: partition
2024-03-01 against checkpoint 2024-01-10 with a 5-day window and
`close = "left"`. -/
theorem boundary_window_characterization_witness :
    validCloseArgs.contains (some "left") = true
    ∧ demoParser "2024-01-10" = .ok ⟨2024, 1, 10⟩
    ∧ demoParser "2024-03-01" = .ok ⟨2024, 3, 1⟩
    ∧ ((boundary ⟨demoParser, some "2024-01-10"⟩ "2024-03-01" "" (some 5) (some 5)
          (some "left")).2 = .ok true ↔
        ((if (some "left" : Option String) = some "right" then
            lowerOrd (PyDate.ord ⟨2024, 1, 10⟩) (some 5) < PyDate.ord ⟨2024, 3, 1⟩
          else lowerOrd (PyDate.ord ⟨2024, 1, 10⟩) (some 5) ≤ PyDate.ord ⟨2024, 3, 1⟩) ∧
         (match upperOrd (PyDate.ord ⟨2024, 1, 10⟩) (some 5) with
          | some ub =>
              if (some "left" : Option String) = some "left" then PyDate.ord ⟨2024, 3, 1⟩ < ub
              else PyDate.ord ⟨2024, 3, 1⟩ ≤ ub
          | none => True))) := by
  refine ⟨by decide, by decide, by decide, ?_⟩
  exact (boundary_window_characterization demoParser "2024-01-10" "2024-03-01" ""
    ⟨2024, 1, 10⟩ ⟨2024, 3, 1⟩ (some 5) (some 5) (some "left")
    (by decide) (by decide) (by decide)).1

/-- C9 counterexample: on a failing parser, `boundary` surfaces the parser's
own exception unwrapped (not a configuration error), and `same_month`'s
configuration error carries a fixed message that does not mention the
partition or checkpoint values. -/
theorem parser_failure_not_config_error :
    (boundary (mkComparisonFunction demoParser) "oops" "oops" none none none).2
      = .error (.parserError "could not parse oops")
    ∧ (sameMonth (mkComparisonFunction demoParser) "oops" "oops" (some "auto")).2
      = .error (.valueError "Parser error. Please check your parser")
    ∧ strContains "Parser error. Please check your parser" "oops" = false := by
  exact ⟨by decide, by decide, by decide⟩

/-- C9 (amended): `same_month` wraps any failure of the injected parser (on
either the remembered checkpoint or the partition id) into the single
configuration error `ValueError("Parser error. Please check your parser")`,
whose fixed message does not carry the original values; `boundary` does not
wrap parser failures at all: the parser's own exception propagates. -/
theorem parser_failure_surfacing :
    ∀ (pr : String → Except String PyDate) (ck p c : String) (im : Option String)
      (l r : Option Int) (close : Option String) (e : String),
      (validIncrementMethods.contains (lowerStr (im.getD "")) = true →
        pr ck = .error e →
        (sameMonth ⟨pr, some ck⟩ p c im).2
          = .error (.valueError "Parser error. Please check your parser"))
      ∧ (validIncrementMethods.contains (lowerStr (im.getD "")) = true →
        ∀ d, pr ck = .ok d → pr p = .error e →
        (sameMonth ⟨pr, some ck⟩ p c im).2
          = .error (.valueError "Parser error. Please check your parser"))
      ∧ (validCloseArgs.contains close = true →
        pr ck = .error e →
        (boundary ⟨pr, some ck⟩ p c l r close).2 = .error (.parserError e))
      ∧ (validCloseArgs.contains close = true →
        ∀ d, pr ck = .ok d → pr p = .error e →
        (boundary ⟨pr, some ck⟩ p c l r close).2 = .error (.parserError e)) := by
  intro pr ck p c im l r close e
  refine ⟨fun hv hck => ?_, fun hv d hck hp => ?_, fun hv hck => ?_, fun hv d hck hp => ?_⟩
  · have hv' : lowerStr (im.getD "") ∈ validIncrementMethods := by simpa using hv
    cases hp : pr p <;> simp [sameMonth, sameMonthResult, initCk, hv', hck, hp]
  · have hv' : lowerStr (im.getD "") ∈ validIncrementMethods := by simpa using hv
    simp [sameMonth, sameMonthResult, initCk, hv', hck, hp]
  · have hv' : close ∈ validCloseArgs := by simpa using hv
    simp [boundary, boundaryResult, initCk, hv', hck]
  · have hv' : close ∈ validCloseArgs := by simpa using hv
    simp [boundary, boundaryResult, initCk, hv', hck, hp]

/-- Closed witness for `parser_failure_surfacing`, at the demo parser failing
on the partition id. -/
theorem parser_failure_surfacing_witness :
    validIncrementMethods.contains (lowerStr ((some "auto" : Option String).getD "")) = true
    ∧ demoParser "2024-01-10" = .ok ⟨2024, 1, 10⟩
    ∧ demoParser "nope" = .error "could not parse nope"
    ∧ (sameMonth ⟨demoParser, some "2024-01-10"⟩ "nope" "" (some "auto")).2
        = .error (.valueError "Parser error. Please check your parser") := by
  refine ⟨by decide, by decide, by decide, ?_⟩
  exact (parser_failure_surfacing demoParser "2024-01-10" "nope" "" (some "auto")
    none none none "could not parse nope").2.1 (by decide) ⟨2024, 1, 10⟩ (by decide) (by decide)

lemma noneSynonyms_subset_valid (x : String) (h : noneSynonyms.contains x = true) :
    validIncrementMethods.contains x = true := by
  simp [noneSynonyms] at h
  rcases h with h | h | h <;> simp [validIncrementMethods, h]

/-- C6 counterexample: mode `"none"`, checkpoint 2024-03-01 and partition
2024-03-15 parse to dates in the same month; the claim admits, but the code
compares the parsed values for equality and rejects. -/
theorem sameMonth_rejects_same_month_example :
    (sameMonth (mkComparisonFunction demoParser) "2024-03-15" "2024-03-01" (some "none")).2
      = .ok false
    ∧ demoParser "2024-03-15" = .ok ⟨2024, 3, 15⟩
    ∧ demoParser "2024-03-01" = .ok ⟨2024, 3, 1⟩
    ∧ (PyDate.mk 2024 3 15).y = (PyDate.mk 2024 3 1).y
    ∧ (PyDate.mk 2024 3 15).m = (PyDate.mk 2024 3 1).m := by
  exact ⟨by decide, by decide, by decide, by decide, by decide⟩

/-- C6 (amended): `same_month` dispatches on the mode string as follows. A
mode whose lowercase form is `no`, `null` or `none` admits iff the parsed
partition *equals* the parsed checkpoint (so "same month" is realized only
when the injected parser is month-granular); exactly `"auto"` admits iff the
parsed partition equals the parsed checkpoint or the checkpoint plus one
calendar month; exactly `"next"` iff it equals the checkpoint plus one month;
a mode whose lowercase form is outside `no/null/none/n/auto/next` is rejected
with `ValueError` before any date is parsed (for any parser outcome); the
remaining accepted modes (`"n"` and non-lowercase spellings of auto/next)
admit nothing. -/
theorem sameMonth_mode_characterization :
    ∀ (pr : String → Except String PyDate) (ck p c : String) (im : String),
      ((noneSynonyms.contains (lowerStr im) = true →
        ∀ chkPt partId, pr ck = .ok chkPt → pr p = .ok partId →
        (sameMonth ⟨pr, some ck⟩ p c (some im)).2 = .ok (partId == chkPt))
      ∧ (im = "auto" →
        ∀ chkPt partId, pr ck = .ok chkPt → pr p = .ok partId →
        (sameMonth ⟨pr, some ck⟩ p c (some im)).2
          = .ok (partId == chkPt || partId == addMonth chkPt))
      ∧ (im = "next" →
        ∀ chkPt partId, pr ck = .ok chkPt → pr p = .ok partId →
        (sameMonth ⟨pr, some ck⟩ p c (some im)).2 = .ok (partId == addMonth chkPt))
      ∧ (validIncrementMethods.contains (lowerStr im) = true →
        noneSynonyms.contains (lowerStr im) = false → im ≠ "auto" → im ≠ "next" →
        ∀ chkPt partId, pr ck = .ok chkPt → pr p = .ok partId →
        (sameMonth ⟨pr, some ck⟩ p c (some im)).2 = .ok false)
      ∧ (validIncrementMethods.contains (lowerStr im) = false →
        (sameMonth ⟨pr, some ck⟩ p c (some im)).2
          = .error (.valueError "Invalid increment_method!"))) := by
  intro pr ck p c im
  refine ⟨fun hn chkPt partId hck hp => ?_, fun ha chkPt partId hck hp => ?_,
    fun hx chkPt partId hck hp => ?_, fun hv hn ha hx chkPt partId hck hp => ?_,
    fun hv => ?_⟩
  · have hv' : lowerStr im ∈ validIncrementMethods := by
      simpa using noneSynonyms_subset_valid _ hn
    have hn' : lowerStr im ∈ noneSynonyms := by simpa using hn
    simp [sameMonth, sameMonthResult, initCk, hv', hn', hck, hp]
  · subst ha
    simp [sameMonth, sameMonthResult, initCk, hck, hp, validIncrementMethods,
      noneSynonyms, lowerStr]
  · subst hx
    simp [sameMonth, sameMonthResult, initCk, hck, hp, validIncrementMethods,
      noneSynonyms, lowerStr]
  · have hv' : lowerStr im ∈ validIncrementMethods := by simpa using hv
    have hn' : lowerStr im ∉ noneSynonyms := by simpa using hn
    simp [sameMonth, sameMonthResult, initCk, hv', hn', hck, hp, ha, hx]
  · have hv' : lowerStr im ∉ validIncrementMethods := by simpa using hv
    simp [sameMonth, sameMonthResult, initCk, hv']

/-- Closed witness for `sameMonth_mode_characterization`: mode `"auto"`,
checkpoint 2024-03-01, partition 2024-04-01 (exactly one month later). -/
theorem sameMonth_mode_characterization_witness :
    demoParser "2024-03-01" = .ok ⟨2024, 3, 1⟩
    ∧ demoParser "2024-04-01" = .ok ⟨2024, 4, 1⟩
    ∧ (sameMonth ⟨demoParser, some "2024-03-01"⟩ "2024-04-01" "" (some "auto")).2
        = .ok ((⟨2024, 4, 1⟩ : PyDate) == ⟨2024, 3, 1⟩
            || (⟨2024, 4, 1⟩ : PyDate) == addMonth ⟨2024, 3, 1⟩) := by
  refine ⟨by decide, by decide, ?_⟩
  exact (sameMonth_mode_characterization demoParser "2024-03-01" "2024-04-01" ""
    "auto").2.1 rfl ⟨2024, 3, 1⟩ ⟨2024, 4, 1⟩ (by decide) (by decide)

/-! ### C1 and C2: the CREATE path -/

/-- A set enumeration that reverses first-seen order; CPython never promises
first-seen order for `set(...)`, so this order is as admissible as any. -/
def sigmaRev : List String → List String :=
  fun l => (firstSeen l).reverse

def dfAB : Frame :=
  { cols := [("a", .int), ("b", .int)], rows := [] }

/-- C1 counterexample: under a legitimate set enumeration (here: the reversal
of first-seen order), the CREATE statement for a table with columns `a`, `b`
lists them as `b`, `a` — not in first-seen order, so the emitted DDL is not
determined by the caller-supplied input alone. -/
theorem create_order_not_first_seen :
    IsSetEnum sigmaRev
    ∧ (createColumns sigmaRev none "a" [dfAB]).map Prod.fst
        ≠ firstSeen (allColNames [dfAB])
    ∧ (createOrAlterTable sigmaRev none "a" "db" ⟨[]⟩ "t" dfAB [dfAB]).2
        = [.createTable "db" "t" (createColumns sigmaRev none "a" [dfAB]) "a"] := by
  exact ⟨fun l => List.reverse_perm _, by decide, by decide⟩

/-- C1 (amended): when the table does not exist, the save call emits exactly
one CREATE statement whose column list contains every column of the column
universe (union of the frames' columns) exactly once, each with its
cross-frame merged type — but in the runtime's set-iteration order, which is
not specified to be first-seen order. -/
theorem create_lists_column_universe :
    ∀ (σ : List String → List String) (tz : Option String) (orderBy db t : String)
      (st : ChState) (df : Frame) (dfs : List Frame),
      IsSetEnum σ → tableExists st t = false →
      (createOrAlterTable σ tz orderBy db st t df dfs).2
        = [.createTable db t (createColumns σ tz orderBy dfs) orderBy]
      ∧ ((createColumns σ tz orderBy dfs).map Prod.fst).Perm
          (firstSeen (allColNames dfs)) := by
  intro σ tz ob db t st df dfs hσ hex
  refine ⟨by simp [createOrAlterTable, hex], ?_⟩
  have hmap : (createColumns σ tz ob dfs).map Prod.fst = σ (allColNames dfs) := by
    unfold createColumns
    rw [List.map_map]
    have hid : (Prod.fst ∘ fun c : String => (c, getMergedType tz ob dfs c)) = id := rfl
    rw [hid, List.map_id]
  rw [hmap]
  exact hσ _

/-- Closed witness for `create_lists_column_universe` at the identity
(first-seen) enumeration. -/
theorem create_lists_column_universe_witness :
    IsSetEnum firstSeen
    ∧ tableExists ⟨[]⟩ "t" = false
    ∧ (createOrAlterTable firstSeen none "a" "db" ⟨[]⟩ "t" dfAB [dfAB]).2
        = [.createTable "db" "t" (createColumns firstSeen none "a" [dfAB]) "a"]
    ∧ ((createColumns firstSeen none "a" [dfAB]).map Prod.fst).Perm
        (firstSeen (allColNames [dfAB])) := by
  refine ⟨fun l => List.Perm.refl _, by decide, ?_, ?_⟩
  · exact (create_lists_column_universe firstSeen none "a" "db" "t" ⟨[]⟩ dfAB [dfAB]
      (fun l => List.Perm.refl _) (by decide)).1
  · exact (create_lists_column_universe firstSeen none "a" "db" "t" ⟨[]⟩ dfAB [dfAB]
      (fun l => List.Perm.refl _) (by decide)).2

lemma getMergedType_orderBy_not_nullable (tz : Option String) (ob : String)
    (dfs : List Frame)
    (htz : ∀ s, tz = some s → strContains ("DateTime('" ++ s ++ "')") "Nullable" = false) :
    strContains (getMergedType tz ob dfs ob) "Nullable" = false := by
  unfold getMergedType
  cases hmd : mergedDtypeOf dfs ob
  case int => simp [getClickhouseType]; decide
  case float => simp [getClickhouseType]; decide
  case bool => simp [getClickhouseType]; decide
  case obj => simp [getClickhouseType]; decide
  case datetime =>
    cases htz' : tz
    case none => simp [getClickhouseType]; decide
    case some s =>
      have hs := htz s htz'
      simp [getClickhouseType, hs]

/-- C2 (amended): in every CREATE statement the engine produces, the type
listed for the configured order_by column never contains the Nullable
wrapper, whatever the merged source dtype is (assuming the configured
timezone string does not itself spell "Nullable" into the rendered DateTime
type); the ADD COLUMN path does not enjoy this protection. -/
theorem orderBy_not_nullable_in_create :
    ∀ (σ : List String → List String) (tz : Option String) (orderBy : String)
      (dfs : List Frame) (ty : String),
      (∀ s, tz = some s → strContains ("DateTime('" ++ s ++ "')") "Nullable" = false) →
      (orderBy, ty) ∈ createColumns σ tz orderBy dfs →
      strContains ty "Nullable" = false := by
  intro σ tz ob dfs ty htz hmem
  simp only [createColumns, List.mem_map] at hmem
  obtain ⟨c, -, hc⟩ := hmem
  obtain ⟨hc1, hc2⟩ := Prod.mk.injEq .. ▸ hc
  subst hc1
  rw [← hc2]
  exact getMergedType_orderBy_not_nullable tz c dfs htz

/-- Closed witness for `orderBy_not_nullable_in_create`: an integer order_by
column renders as plain `Int32` in the CREATE list. -/
theorem orderBy_not_nullable_in_create_witness :
    ("k", "Int32") ∈ createColumns firstSeen none "k" [⟨[("k", .int)], []⟩]
    ∧ strContains "Int32" "Nullable" = false := by
  refine ⟨by decide, ?_⟩
  exact orderBy_not_nullable_in_create firstSeen none "k" [⟨[("k", .int)], []⟩] "Int32"
    (fun s h => by cases h) (by decide)

def dfOrderNew : Frame :=
  { cols := [("k", .int)], rows := [] }

/-- C2 counterexample: the table `t` already exists without the order_by
column `k`; the frame introduces `k` with an integer dtype, and the engine
emits `ADD COLUMN k Nullable(Int32)` — a Nullable type for the configured
order_by column, because the ALTER path types columns with
`_get_clickhouse_type` and never strips the wrapper. -/
theorem alter_can_nullify_order_by :
    (createOrAlterTable firstSeen none "k" "db" ⟨[("t", ["a"])]⟩ "t" dfOrderNew
        [dfOrderNew]).2
      = [.addColumn "db" "t" "k" "Nullable(Int32)"]
    ∧ strContains "Nullable(Int32)" "Nullable" = true := by
  exact ⟨by decide, by decide⟩

/-! ### C3: the ALTER path -/

lemma alterLoop_ops_eq (tz : Option String) (db t : String) (existing : List String) :
    ∀ (cols : List (String × Dtype)) (st : ChState),
      (alterLoop tz db t existing st cols).2
        = (cols.filter (fun cd => !existing.contains cd.1)).map
            (fun cd => ChOp.addColumn db t cd.1 (getClickhouseType tz cd.2)) := by
  intro cols
  induction cols with
  | nil => intro st; rfl
  | cons cd rest ih =>
      intro st
      by_cases h : cd.1 ∈ existing
      · simp [alterLoop, h, ih]
      · simp [alterLoop, h, ih]

/-- C3: when the table exists, the engine emits exactly the ADD COLUMN
statements for the processed frame's columns that are absent from the table's
existing columns, in frame order, each typed by `_get_clickhouse_type` from
that frame's own dtype; the result is independent of the other frames (no
cross-frame merge is consulted), and under distinct frame column names each
such new column gets exactly one ADD COLUMN statement. -/
theorem alter_types_from_triggering_frame :
    ∀ (σ σ' : List String → List String) (tz : Option String) (orderBy orderBy' db t : String)
      (st : ChState) (df : Frame) (dfs dfs' : List Frame),
      tableExists st t = true →
      ((createOrAlterTable σ tz orderBy db st t df dfs).2
        = (df.cols.filter (fun cd => !((st.tables.lookup t).getD []).contains cd.1)).map
            (fun cd => ChOp.addColumn db t cd.1 (getClickhouseType tz cd.2)))
      ∧ ((createOrAlterTable σ tz orderBy db st t df dfs).2
          = (createOrAlterTable σ' tz orderBy' db st t df dfs').2)
      ∧ (∀ c dty, (df.cols.map Prod.fst).Nodup → (c, dty) ∈ df.cols →
          ((st.tables.lookup t).getD []).contains c = false →
          (createOrAlterTable σ tz orderBy db st t df dfs).2.count
            (ChOp.addColumn db t c (getClickhouseType tz dty)) = 1) := by
  intro σ σ' tz ob ob' db t st df dfs dfs' hex
  have h1 : (createOrAlterTable σ tz ob db st t df dfs).2
      = (df.cols.filter (fun cd => !((st.tables.lookup t).getD []).contains cd.1)).map
          (fun cd => ChOp.addColumn db t cd.1 (getClickhouseType tz cd.2)) := by
    simp [createOrAlterTable, hex, alterLoop_ops_eq]
  have h2 : (createOrAlterTable σ' tz ob' db st t df dfs').2
      = (df.cols.filter (fun cd => !((st.tables.lookup t).getD []).contains cd.1)).map
          (fun cd => ChOp.addColumn db t cd.1 (getClickhouseType tz cd.2)) := by
    simp [createOrAlterTable, hex, alterLoop_ops_eq]
  refine ⟨h1, h1.trans h2.symm, fun c dty hnd hmem hnew => ?_⟩
  rw [h1]
  have hmemf : (c, dty) ∈ df.cols.filter
      (fun cd => !((st.tables.lookup t).getD []).contains cd.1) :=
    List.mem_filter.mpr ⟨hmem, by simpa using hnew⟩
  have htgt : ChOp.addColumn db t c (getClickhouseType tz dty)
      ∈ (df.cols.filter (fun cd => !((st.tables.lookup t).getD []).contains cd.1)).map
          (fun cd => ChOp.addColumn db t cd.1 (getClickhouseType tz cd.2)) :=
    List.mem_map_of_mem _ hmemf
  have hpairs : df.cols.Nodup := List.Nodup.of_map Prod.fst hnd
  have hfm : ((df.cols.filter
      (fun cd => !((st.tables.lookup t).getD []).contains cd.1)).map Prod.fst).Nodup :=
    List.Nodup.sublist ((List.filter_sublist _).map Prod.fst) hnd
  have hinj := List.inj_on_of_nodup_map hfm
  have hopsnd : ((df.cols.filter
      (fun cd => !((st.tables.lookup t).getD []).contains cd.1)).map
        (fun cd => ChOp.addColumn db t cd.1 (getClickhouseType tz cd.2))).Nodup := by
    exact List.Nodup.map_on (fun x hx y hy hf => hinj hx hy (ChOp.addColumn.inj hf).2.2.1)
      (List.Nodup.filter _ hpairs)
  exact List.count_eq_one_of_mem hopsnd htgt

/-- Closed witness for `alter_types_from_triggering_frame`: table `t` exists
with column `a`; a frame with columns `a` (int) and `b` (float) triggers
exactly the single ADD COLUMN for `b`, typed from the frame's own dtype. -/
theorem alter_types_from_triggering_frame_witness :
    tableExists ⟨[("t", ["a"])]⟩ "t" = true
    ∧ (createOrAlterTable firstSeen none "a" "db" ⟨[("t", ["a"])]⟩ "t"
          ⟨[("a", .int), ("b", .float)], []⟩ [⟨[("a", .int), ("b", .float)], []⟩]).2
        = ((⟨[("a", .int), ("b", .float)], []⟩ : Frame).cols.filter
            (fun cd => !(((⟨[("t", ["a"])]⟩ : ChState).tables.lookup "t").getD []).contains cd.1)).map
            (fun cd => ChOp.addColumn "db" "t" cd.1 (getClickhouseType none cd.2)) := by
  refine ⟨by decide, ?_⟩
  exact (alter_types_from_triggering_frame firstSeen firstSeen none "a" "a" "db" "t"
    ⟨[("t", ["a"])]⟩ ⟨[("a", .int), ("b", .float)], []⟩ [⟨[("a", .int), ("b", .float)], []⟩]
    [⟨[("a", .int), ("b", .float)], []⟩] (by decide)).1

/-! ### C4: frames are inserted verbatim in the multi-table path -/

lemma mem_coat_cases (σ : List String → List String) (tz : Option String)
    (orderBy db t : String) (st : ChState) (df0 : Frame) (dfs : List Frame) (o : ChOp)
    (h : o ∈ (createOrAlterTable σ tz orderBy db st t df0 dfs).2) :
    o = ChOp.createTable db t (createColumns σ tz orderBy dfs) orderBy
    ∨ ∃ c ty, o = ChOp.addColumn db t c ty := by
  by_cases hex : tableExists st t = false
  · left
    simpa [createOrAlterTable, hex] using h
  · right
    rw [createOrAlterTable, if_neg hex, alterLoop_ops_eq] at h
    obtain ⟨cd, -, hcd⟩ := List.mem_map.mp h
    exact ⟨cd.1, getClickhouseType tz cd.2, hcd.symm⟩

lemma mem_framesLoop_insert (σ : List String → List String) (tz : Option String)
    (orderBy db t : String) (dfsAll : List Frame) (d t' : String) (df : Frame) :
    ∀ (dfs' : List Frame) (st : ChState),
      ChOp.insertDf d t' df ∈ (framesLoop σ tz orderBy db t dfsAll st dfs').2 →
      d = db ∧ t' = t ∧ df ∈ dfs' := by
  intro dfs'
  induction dfs' with
  | nil => intro st h; cases h
  | cons df0 rest ih =>
      intro st h
      rw [framesLoop] at h
      simp only [List.mem_append, List.mem_singleton] at h
      rcases h with (h | h) | h
      · rcases mem_coat_cases σ tz orderBy db t st df0 dfsAll _ h with h' | ⟨c, ty, h'⟩ <;>
          cases h'
      · obtain ⟨h1, h2, h3⟩ := ChOp.insertDf.inj h
        exact ⟨h1, h2, by simp [h3]⟩
      · obtain ⟨h1, h2, h3⟩ := ih _ h
        exact ⟨h1, h2, by simp [h3]⟩

lemma mem_saveOne_insert (σ : List String → List String) (tz : Option String)
    (orderBy db : String) (overwrite : Bool) (st : ChState) (t : String)
    (dfs : List Frame) (d t' : String) (df : Frame)
    (h : ChOp.insertDf d t' df ∈ (saveOne σ tz orderBy db overwrite st t dfs).2) :
    d = db ∧ t' = t ∧ df ∈ dfs := by
  rw [saveOne] at h
  by_cases hc : overwrite && tableExists st t
  · rw [if_pos hc] at h
    rcases List.mem_cons.mp h with h' | h'
    · cases h'
    · exact mem_framesLoop_insert σ tz orderBy db t dfs d t' df dfs _ h'
  · rw [if_neg hc] at h
    exact mem_framesLoop_insert σ tz orderBy db t dfs d t' df dfs _ h

lemma mem_saveLoop_insert (σ : List String → List String) (tz : Option String)
    (orderBy db : String) (overwrite : Bool) (d t' : String) (df : Frame) :
    ∀ (data : List (String × List Frame)) (st : ChState),
      ChOp.insertDf d t' df ∈ (saveLoop σ tz orderBy db overwrite st data).2 →
      d = db ∧ ∃ dfs, (t', dfs) ∈ data ∧ df ∈ dfs := by
  intro data
  induction data with
  | nil => intro st h; cases h
  | cons td rest ih =>
      intro st h
      obtain ⟨t1, dfs1⟩ := td
      rw [saveLoop] at h
      rcases List.mem_append.mp h with h' | h'
      · obtain ⟨h1, h2, h3⟩ := mem_saveOne_insert σ tz orderBy db overwrite st t1 dfs1 d t' df h'
        exact ⟨h1, dfs1, by simp [h2], h3⟩
      · obtain ⟨h1, dfs, h2, h3⟩ := ih _ h'
        exact ⟨h1, dfs, by simp [h2], h3⟩

/-- C4 (amended): in the multi-table ClickHouse path every inserted frame is
one of the caller's frames passed through unchanged — no NaN-to-null
conversion happens there; the conversion `replace({np.nan: None})` is applied
only in the single-frame ClickHouse insert branch of `SQLTableDataset._save`. -/
theorem frames_inserted_verbatim :
    (∀ (σ : List String → List String) (tz : Option String) (orderBy db : String)
      (overwrite : Bool) (st : ChState) (data : List (String × List Frame))
      (d t : String) (df : Frame),
      ChOp.insertDf d t df ∈ (chSave σ tz orderBy db overwrite st data).2 →
      d = db ∧ ∃ dfs, (t, dfs) ∈ data ∧ df ∈ dfs)
    ∧ (∀ (conn name : String) (df : Frame),
      strContains conn "clickhouse" = true →
      sqlTableSave conn name (.frame df) = some [SqlOp.insertDf name (replaceNanNone df)]) := by
  constructor
  · intro σ tz ob db ow st data d t df h
    rw [chSave] at h
    rcases List.mem_cons.mp h with h' | h'
    · cases h'
    · exact mem_saveLoop_insert σ tz ob db ow d t df data st h'
  · intro conn name df hconn
    simp [sqlTableSave, hconn]

def dfNaN : Frame :=
  { cols := [("x", .float)], rows := [[Cell.nan]] }

/-- C4 counterexample: a frame whose only cell is the NaN sentinel is
inserted by the multi-table save exactly as supplied — the NaN cell is still
NaN at insert time, and the converted frame is never the one inserted. -/
theorem multi_table_insert_keeps_nan :
    ChOp.insertDf "db" "t" dfNaN
      ∈ (chSave firstSeen none "x" "db" false ⟨[]⟩ [("t", [dfNaN])]).2
    ∧ replaceNanNone dfNaN ≠ dfNaN
    ∧ ChOp.insertDf "db" "t" (replaceNanNone dfNaN)
        ∉ (chSave firstSeen none "x" "db" false ⟨[]⟩ [("t", [dfNaN])]).2 := by
  exact ⟨by decide, by decide, by decide⟩

/-- Closed witness for `frames_inserted_verbatim` at a one-table save. -/
theorem frames_inserted_verbatim_witness :
    strContains "clickhouse://h" "clickhouse" = true
    ∧ sqlTableSave "clickhouse://h" "t" (.frame dfNaN)
        = some [SqlOp.insertDf "t" (replaceNanNone dfNaN)]
    ∧ ("db" = "db" ∧ ∃ dfs, ("t", dfs) ∈ [("t", [dfNaN])] ∧ dfNaN ∈ dfs) := by
  refine ⟨by decide, ?_, ?_⟩
  · exact frames_inserted_verbatim.2 "clickhouse://h" "t" dfNaN (by decide)
  · exact frames_inserted_verbatim.1 firstSeen none "x" "db" false ⟨[]⟩ [("t", [dfNaN])]
      "db" "t" dfNaN (by decide)

/-! ### C5: drop discipline under overwrite -/

lemma opTable_framesLoop (σ : List String → List String) (tz : Option String)
    (orderBy db t : String) (dfsAll : List Frame) :
    ∀ (dfs' : List Frame) (st : ChState) (o : ChOp),
      o ∈ (framesLoop σ tz orderBy db t dfsAll st dfs').2 →
      opTable o = some t ∧ isDropOp o = false := by
  intro dfs'
  induction dfs' with
  | nil => intro st o h; cases h
  | cons df0 rest ih =>
      intro st o h
      rw [framesLoop] at h
      simp only [List.mem_append, List.mem_singleton] at h
      rcases h with (h | h) | h
      · rcases mem_coat_cases σ tz orderBy db t st df0 dfsAll o h with h' | ⟨c, ty, h'⟩ <;>
          simp [h', opTable, isDropOp]
      · simp [h, opTable, isDropOp]
      · exact ih _ o h

lemma saveOne_ops_decomp (σ : List String → List String) (tz : Option String)
    (orderBy db : String) (overwrite : Bool) (st : ChState) (t : String)
    (dfs : List Frame) :
    (saveOne σ tz orderBy db overwrite st t dfs).2
      = (if overwrite && tableExists st t then [ChOp.dropTable db t] else [])
        ++ (framesLoop σ tz orderBy db t dfs
              (if overwrite && tableExists st t then dropState st t else st) dfs).2 := by
  by_cases h : overwrite && tableExists st t <;> simp [saveOne, h]

lemma opTable_saveOne (σ : List String → List String) (tz : Option String)
    (orderBy db : String) (overwrite : Bool) (st : ChState) (t : String)
    (dfs : List Frame) (o : ChOp)
    (h : o ∈ (saveOne σ tz orderBy db overwrite st t dfs).2) :
    opTable o = some t := by
  rw [saveOne_ops_decomp] at h
  rcases List.mem_append.mp h with h' | h'
  · by_cases hc : overwrite && tableExists st t
    · rw [if_pos hc] at h'
      rcases List.mem_singleton.mp h' with rfl
      rfl
    · rw [if_neg hc] at h'
      cases h'
  · exact (opTable_framesLoop σ tz orderBy db t dfs dfs _ o h').1

lemma lookup_filter_ne (t t' : String) (h : t ≠ t') :
    ∀ (l : List (String × List String)),
      (l.filter (fun e => e.1 != t')).lookup t = l.lookup t := by
  intro l
  induction l with
  | nil => rfl
  | cons e rest ih =>
      obtain ⟨k, v⟩ := e
      by_cases he : k = t'
      · have h1 : (k != t') = false := by simp [he]
        have h2 : (t == k) = false := beq_eq_false_iff_ne.mpr (by rw [he]; exact h)
        simp only [List.filter_cons, h1]
        rw [if_neg (by simp)]
        rw [ih, List.lookup, h2]
      · have h1 : (k != t') = true := by simp [he]
        simp only [List.filter_cons, h1]
        rw [if_pos trivial]
        cases h2 : (t == k)
        · rw [List.lookup, h2, List.lookup, h2, ih]
        · rw [List.lookup, h2, List.lookup, h2]

lemma lookup_append_single (t t' : String) (v : List String) (h : t ≠ t') :
    ∀ (l : List (String × List String)),
      (l ++ [(t', v)]).lookup t = l.lookup t := by
  intro l
  induction l with
  | nil =>
      have h2 : (t == t') = false := beq_eq_false_iff_ne.mpr h
      simp [List.lookup, h2]
  | cons e rest ih =>
      obtain ⟨k, v'⟩ := e
      cases h2 : (t == k)
      · rw [List.cons_append, List.lookup, h2, List.lookup, h2, ih]
      · rw [List.cons_append, List.lookup, h2, List.lookup, h2]

lemma lookup_map_addcol (t t' c : String) (h : t ≠ t') :
    ∀ (l : List (String × List String)),
      (l.map (fun e => if e.1 == t' then (e.1, e.2 ++ [c]) else e)).lookup t
        = l.lookup t := by
  intro l
  induction l with
  | nil => rfl
  | cons e rest ih =>
      obtain ⟨k, v⟩ := e
      rw [List.map_cons]
      by_cases h1 : k = t'
      · have hb : ((k, v).1 == t') = true := beq_iff_eq.mpr h1
        have h2 : (t == k) = false := beq_eq_false_iff_ne.mpr (by rw [h1]; exact h)
        rw [if_pos hb]
        rw [List.lookup, List.lookup]
        simp only [h2]
        exact ih
      · have hb : ((k, v).1 == t') = false := beq_eq_false_iff_ne.mpr h1
        rw [if_neg (by simp [hb])]
        cases h2 : (t == k)
        · rw [List.lookup, h2, List.lookup, h2, ih]
        · rw [List.lookup, h2, List.lookup, h2]

lemma lookup_alterLoop (tz : Option String) (db t' : String) (existing : List String)
    (t : String) (h : t ≠ t') :
    ∀ (cols : List (String × Dtype)) (st : ChState),
      ((alterLoop tz db t' existing st cols).1).tables.lookup t = st.tables.lookup t := by
  intro cols
  induction cols with
  | nil => intro st; rfl
  | cons cd rest ih =>
      intro st
      by_cases hc : cd.1 ∈ existing
      · simp [alterLoop, hc, ih]
      · simp only [alterLoop, hc]
        rw [if_neg (by simpa using hc)]
        rw [ih]
        exact lookup_map_addcol t t' cd.1 h st.tables

lemma lookup_coat (σ : List String → List String) (tz : Option String)
    (orderBy db t' : String) (st : ChState) (df : Frame) (dfs : List Frame)
    (t : String) (h : t ≠ t') :
    ((createOrAlterTable σ tz orderBy db st t' df dfs).1).tables.lookup t
      = st.tables.lookup t := by
  by_cases hex : tableExists st t' = false
  · simp only [createOrAlterTable, hex, if_pos]
    exact lookup_append_single t t' _ h st.tables
  · rw [createOrAlterTable, if_neg (by simpa using hex)]
    exact lookup_alterLoop tz db t' _ t h df.cols st

lemma lookup_framesLoop (σ : List String → List String) (tz : Option String)
    (orderBy db t' : String) (dfsAll : List Frame) (t : String) (h : t ≠ t') :
    ∀ (dfs' : List Frame) (st : ChState),
      ((framesLoop σ tz orderBy db t' dfsAll st dfs').1).tables.lookup t
        = st.tables.lookup t := by
  intro dfs'
  induction dfs' with
  | nil => intro st; rfl
  | cons df0 rest ih =>
      intro st
      rw [framesLoop]
      rw [ih]
      exact lookup_coat σ tz orderBy db t' st df0 dfsAll t h

lemma lookup_saveOne (σ : List String → List String) (tz : Option String)
    (orderBy db : String) (overwrite : Bool) (st : ChState) (t' : String)
    (dfs : List Frame) (t : String) (h : t ≠ t') :
    ((saveOne σ tz orderBy db overwrite st t' dfs).1).tables.lookup t
      = st.tables.lookup t := by
  by_cases hc : overwrite && tableExists st t'
  · rw [saveOne, if_pos hc]
    rw [lookup_framesLoop σ tz orderBy db t' dfs t h]
    exact lookup_filter_ne t t' h st.tables
  · rw [saveOne, if_neg hc]
    exact lookup_framesLoop σ tz orderBy db t' dfs t h dfs st

lemma isDropOf_and_tagged (t : String) (o : ChOp) :
    (isDropOf t o && (opTable o == some t)) = isDropOf t o := by
  cases o with
  | dropTable d t' =>
      by_cases h : t' = t
      · subst h; simp [isDropOf, opTable]
      · simp [isDropOf, opTable, h]
  | createDatabase d => simp [isDropOf]
  | createTable d t' cols ob => simp [isDropOf]
  | addColumn d t' c ty => simp [isDropOf]
  | insertDf d t' df => simp [isDropOf]

lemma isDropOf_imp_isDrop (t : String) (o : ChOp) (h : isDropOf t o = true) :
    isDropOp o = true := by
  cases o <;> simp_all [isDropOf, isDropOp]

lemma opsFor_saveOne_self (σ : List String → List String) (tz : Option String)
    (orderBy db : String) (overwrite : Bool) (st : ChState) (t : String)
    (dfs : List Frame) :
    opsFor t (saveOne σ tz orderBy db overwrite st t dfs).2
      = (saveOne σ tz orderBy db overwrite st t dfs).2 :=
  List.filter_eq_self.mpr fun o ho => by
    rw [opTable_saveOne σ tz orderBy db overwrite st t dfs o ho]
    exact beq_self_eq_true _

lemma opsFor_saveOne_other (σ : List String → List String) (tz : Option String)
    (orderBy db : String) (overwrite : Bool) (st : ChState) (t t' : String)
    (dfs : List Frame) (h : t ≠ t') :
    opsFor t (saveOne σ tz orderBy db overwrite st t' dfs).2 = [] :=
  List.filter_eq_nil_iff.mpr fun o ho => by
    rw [opTable_saveOne σ tz orderBy db overwrite st t' dfs o ho]
    simp
    exact fun hh => h hh.symm

lemma opsFor_saveLoop_absent (σ : List String → List String) (tz : Option String)
    (orderBy db : String) (overwrite : Bool) (t : String) :
    ∀ (data : List (String × List Frame)) (st : ChState),
      t ∉ data.map Prod.fst →
      opsFor t (saveLoop σ tz orderBy db overwrite st data).2 = [] := by
  intro data
  induction data with
  | nil => intro st _; rfl
  | cons td rest ih =>
      intro st habs
      obtain ⟨t1, dfs1⟩ := td
      have h1 : t ≠ t1 := fun hh => habs (by simp [hh])
      have h2 : t ∉ rest.map Prod.fst := fun hh => habs (by simp [hh])
      rw [saveLoop]
      unfold opsFor
      rw [List.filter_append]
      have ha := opsFor_saveOne_other σ tz orderBy db overwrite st t t1 dfs1 h1
      have hb := ih (saveOne σ tz orderBy db overwrite st t1 dfs1).1 h2
      unfold opsFor at ha hb
      rw [ha, hb]
      rfl

lemma opsFor_saveLoop_mem (σ : List String → List String) (tz : Option String)
    (orderBy db : String) (overwrite : Bool) (t : String) :
    ∀ (data : List (String × List Frame)) (st : ChState) (dfs : List Frame),
      (data.map Prod.fst).Nodup → (t, dfs) ∈ data →
      ∃ st', opsFor t (saveLoop σ tz orderBy db overwrite st data).2
          = (saveOne σ tz orderBy db overwrite st' t dfs).2
        ∧ st'.tables.lookup t = st.tables.lookup t := by
  intro data
  induction data with
  | nil => intro st dfs _ hmem; cases hmem
  | cons td rest ih =>
      intro st dfs hnd hmem
      obtain ⟨t1, dfs1⟩ := td
      have hnd' : (t1 :: rest.map Prod.fst).Nodup := by simpa using hnd
      have hnd1 : t1 ∉ rest.map Prod.fst := (List.nodup_cons.mp hnd').1
      have hnd2 : (rest.map Prod.fst).Nodup := (List.nodup_cons.mp hnd').2
      rcases List.mem_cons.mp hmem with heq | hrest
      · obtain ⟨h1, h2⟩ := Prod.mk.injEq .. ▸ heq
        subst h1
        subst h2
        refine ⟨st, ?_, rfl⟩
        rw [saveLoop]
        unfold opsFor
        rw [List.filter_append]
        have ha := opsFor_saveOne_self σ tz orderBy db overwrite st t dfs
        have hb := opsFor_saveLoop_absent σ tz orderBy db overwrite t rest
          (saveOne σ tz orderBy db overwrite st t dfs).1 hnd1
        unfold opsFor at ha hb
        rw [ha, hb, List.append_nil]
      · have ht1 : t ≠ t1 := by
          intro hh
          subst hh
          exact hnd1 (List.mem_map_of_mem Prod.fst hrest)
        obtain ⟨st', heq', hlk⟩ :=
          ih (saveOne σ tz orderBy db overwrite st t1 dfs1).1 dfs hnd2 hrest
        refine ⟨st', ?_, ?_⟩
        · rw [saveLoop]
          unfold opsFor
          rw [List.filter_append]
          have ha := opsFor_saveOne_other σ tz orderBy db overwrite st t t1 dfs1 ht1
          unfold opsFor at ha heq'
          rw [ha, heq', List.nil_append]
        · rw [hlk]
          exact lookup_saveOne σ tz orderBy db overwrite st t1 dfs1 t ht1

/-- C5: with distinct table names in the save call's mapping, (a) at most one
DROP TABLE is issued per table; (b) a DROP TABLE for `t` is issued only when
overwrite is set, `t` is among the call's tables, and `t` existed in the
backend when the save began, and it is the first op addressing `t` — every
later op for `t` (CREATE/ALTER/insert) comes after it and is not a drop;
(c) a table absent from the call's mapping has no op addressed to it at all. -/
theorem overwrite_drop_discipline :
    ∀ (σ : List String → List String) (tz : Option String) (orderBy db : String)
      (overwrite : Bool) (st : ChState) (data : List (String × List Frame)) (t : String),
      (data.map Prod.fst).Nodup →
      (((chSave σ tz orderBy db overwrite st data).2.filter (isDropOf t)).length ≤ 1)
      ∧ (ChOp.dropTable db t ∈ (chSave σ tz orderBy db overwrite st data).2 →
          overwrite = true ∧ t ∈ data.map Prod.fst ∧ tableExists st t = true
          ∧ (opsFor t (chSave σ tz orderBy db overwrite st data).2).head?
              = some (ChOp.dropTable db t)
          ∧ (∀ o ∈ (opsFor t (chSave σ tz orderBy db overwrite st data).2).tail,
              isDropOp o = false))
      ∧ (t ∉ data.map Prod.fst →
          opsFor t (chSave σ tz orderBy db overwrite st data).2 = []) := by
  intro σ tz ob db ow st data t hnd
  have hch : (chSave σ tz ob db ow st data).2
      = ChOp.createDatabase db :: (saveLoop σ tz ob db ow st data).2 := rfl
  have hopsFor : opsFor t (chSave σ tz ob db ow st data).2
      = opsFor t (saveLoop σ tz ob db ow st data).2 := by
    rw [hch]
    unfold opsFor
    rw [List.filter_cons]
    rw [if_neg (by simp [opTable])]
  have hloopfil : (saveLoop σ tz ob db ow st data).2.filter (isDropOf t)
      = (opsFor t (saveLoop σ tz ob db ow st data).2).filter (isDropOf t) := by
    unfold opsFor
    rw [List.filter_filter]
    exact List.filter_congr fun o _ => (isDropOf_and_tagged t o).symm
  refine ⟨?_, ?_, ?_⟩
  · rw [hch, List.filter_cons]
    rw [if_neg (by simp [isDropOf])]
    rw [hloopfil]
    by_cases hmem : t ∈ data.map Prod.fst
    · obtain ⟨⟨t1, dfs1⟩, hm, he⟩ := List.mem_map.mp hmem
      have ht1 : t1 = t := he
      subst ht1
      obtain ⟨st', heq', -⟩ :=
        opsFor_saveLoop_mem σ tz ob db ow t1 data st dfs1 hnd hm
      rw [heq', saveOne_ops_decomp, List.filter_append, List.length_append]
      have hframes : ((framesLoop σ tz ob db t1 dfs1
          (if ow && tableExists st' t1 then dropState st' t1 else st') dfs1).2.filter
            (isDropOf t1)).length = 0 := by
        rw [List.filter_eq_nil_iff.mpr fun o ho hdo => ?_]
        · rfl
        · have := (opTable_framesLoop σ tz ob db t1 dfs1 dfs1 _ o ho).2
          rw [isDropOf_imp_isDrop t1 o hdo] at this
          cases this
      rw [hframes]
      have hhead : ((if ow && tableExists st' t1 then [ChOp.dropTable db t1]
          else []).filter (isDropOf t1)).length ≤ 1 := by
        by_cases hc : (ow && tableExists st' t1) = true
        · rw [if_pos hc]
          exact List.length_filter_le _ _
        · rw [if_neg hc]
          exact Nat.le_succ 0
      omega
    · rw [opsFor_saveLoop_absent σ tz ob db ow t data st hmem]
      simp
  · intro hdropmem
    have hdrop_in_loop : ChOp.dropTable db t ∈ (saveLoop σ tz ob db ow st data).2 := by
      rw [hch] at hdropmem
      rcases List.mem_cons.mp hdropmem with h' | h'
      · cases h'
      · exact h'
    have hdrop_tagged : ChOp.dropTable db t ∈ opsFor t (saveLoop σ tz ob db ow st data).2 :=
      List.mem_filter.mpr ⟨hdrop_in_loop, by simp [opTable]⟩
    have hmemkeys : t ∈ data.map Prod.fst := by
      by_contra habs
      rw [opsFor_saveLoop_absent σ tz ob db ow t data st habs] at hdrop_tagged
      cases hdrop_tagged
    obtain ⟨⟨t1, dfs1⟩, hm, he⟩ := List.mem_map.mp hmemkeys
    have ht1 : t1 = t := he
    subst ht1
    obtain ⟨st', heq', hlk⟩ :=
      opsFor_saveLoop_mem σ tz ob db ow t1 data st dfs1 hnd hm
    have hdrop_so : ChOp.dropTable db t1 ∈ (saveOne σ tz ob db ow st' t1 dfs1).2 :=
      heq' ▸ hdrop_tagged
    have hnotframes : ∀ stx, ChOp.dropTable db t1
        ∉ (framesLoop σ tz ob db t1 dfs1 stx dfs1).2 := by
      intro stx hmf
      have := (opTable_framesLoop σ tz ob db t1 dfs1 dfs1 stx _ hmf).2
      simp [isDropOp] at this
    have hcond : (ow && tableExists st' t1) = true := by
      by_contra hc
      rw [saveOne_ops_decomp, if_neg hc] at hdrop_so
      rcases List.mem_append.mp hdrop_so with h' | h'
      · cases h'
      · exact hnotframes _ h'
    obtain ⟨how, hex'⟩ : ow = true ∧ tableExists st' t1 = true := by simpa using hcond
    have hex : tableExists st t1 = true := by
      unfold tableExists at hex' ⊢
      rw [← hlk]
      exact hex'
    have hshape : opsFor t1 (chSave σ tz ob db ow st data).2
        = ChOp.dropTable db t1
          :: (framesLoop σ tz ob db t1 dfs1 (dropState st' t1) dfs1).2 := by
      rw [hopsFor, heq', saveOne_ops_decomp, if_pos hcond, if_pos hcond]
      rfl
    refine ⟨how, hmemkeys, hex, ?_, ?_⟩
    · rw [hshape]
      rfl
    · rw [hshape]
      intro o ho
      exact (opTable_framesLoop σ tz ob db t1 dfs1 dfs1 _ o ho).2
  · intro habs
    rw [hopsFor]
    exact opsFor_saveLoop_absent σ tz ob db ow t data st habs

/-- Closed witness for `overwrite_drop_discipline`: a two-table overwrite save
where only table `a` pre-exists; table `z` is not in the call and gets no op. -/
theorem overwrite_drop_discipline_witness :
    (([("a", [dfAB]), ("b", [dfAB])].map Prod.fst : List String)).Nodup
    ∧ opsFor "z" (chSave firstSeen none "a" "db" true ⟨[("a", ["a"])]⟩
        [("a", [dfAB]), ("b", [dfAB])]).2 = [] := by
  refine ⟨by decide, ?_⟩
  exact (overwrite_drop_discipline firstSeen none "a" "db" true ⟨[("a", ["a"])]⟩
    [("a", [dfAB]), ("b", [dfAB])] "z" (by decide)).2.2 (by decide)
